import Mathlib

/-!
Verification of the fermaa print-order storefront (Express server `server.js`
plus the client-side `FileUploader` component) against its natural-language
specification.  The server state is two JSON-array stores (orders, files);
every route re-reads the whole store, mutates it and rewrites it.  We embed
each route handler as a pure function from the store (and the ambient inputs
it reads: current time, random draws, filesystem outcomes) to its HTTP
response and the store it persists.
-/

namespace Fermaa

/-- A JavaScript object, modelled as an ordered association list of
string-keyed string fields (field order is JS insertion order). -/
abbrev Obj := List (String × String)

/-- JS property lookup `o[k]`: value of the first field named `k`. -/
def getKey : Obj → String → Option String
  | [], _ => none
  | p :: rest, k => if p.1 = k then some p.2 else getKey rest k

/-- JS property write `o[k] = v` (also the effect of a trailing `k: v` entry
in an object spread `{...o, k: v}`): overwrite the existing field in place,
or append the field if absent. -/
def setKey : Obj → String → String → Obj
  | [], k, v => [(k, v)]
  | p :: rest, k, v => if p.1 = k then (k, v) :: rest else p :: setKey rest k v

/-! ### Order store (`server.js`, `/api/orders`) -/

/-- `` `ORD-${Date.now()}` ``: the server-stamped order identifier, from the
current time in milliseconds. -/
def orderIdOf (now : Nat) : String := "ORD-" ++ Nat.repr now

/-- The order record built by `POST /api/orders`:
`{...req.body, orderId: ORD-<now>, orderDate: <iso now>, status: 'pending'}`.
`nowIso` is `new Date().toISOString()` for the same instant. -/
def newOrderOf (body : Obj) (now : Nat) (nowIso : String) : Obj :=
  setKey (setKey (setKey body "orderId" (orderIdOf now)) "orderDate" nowIso) "status" "pending"

/-- `POST /api/orders`: append the stamped record to the store, persist,
return the stamped record.  Result: (returned record, persisted store). -/
def createOrder (orders : List Obj) (body : Obj) (now : Nat) (nowIso : String) :
    Obj × List Obj :=
  (newOrderOf body now nowIso, orders ++ [newOrderOf body now nowIso])

/-- One create-order request: the client body and the server clock readings
at the moment the request is handled. -/
structure CreateStep where
  body : Obj
  now : Nat
  nowIso : String

/-- A sequence of create-order requests processed against an initially
empty (or fresh) store. -/
def runCreates (steps : List CreateStep) : List Obj :=
  steps.foldl (fun acc s => (createOrder acc s.body s.now s.nowIso).2) []

/-- `PUT /api/orders/:orderId` store logic: linear scan (`findIndex`) for the
first record whose `orderId` field equals the request parameter; on a match,
overwrite its `status` field in place (`orders[orderIndex].status = status`);
on no match report failure. -/
def updateOrderStatus : List Obj → String → String → Option (Obj × List Obj)
  | [], _, _ => none
  | o :: rest, oid, st =>
    if getKey o "orderId" = some oid then
      some (setKey o "status" st, setKey o "status" st :: rest)
    else
      match updateOrderStatus rest oid st with
      | none => none
      | some (r, rest') => some (r, o :: rest')

/-- `PUT /api/orders/:orderId` route: on no match respond 404 without
writing (the store on disk stays as read); on a match persist the updated
list and respond 200 with the updated record.
Result: ((status code, response body), persisted store). -/
def putOrderHandler (orders : List Obj) (oid st : String) :
    (Nat × Option Obj) × List Obj :=
  match updateOrderStatus orders oid st with
  | none => ((404, none), orders)
  | some (r, orders') => ((200, some r), orders')

/-! ### Store reads (`readOrders` / `readFiles`) and their failure handling -/

/-- Outcome of `fs.readFile` (+ `JSON.parse`) on a store file: the parsed
contents, or a failure with its `error.code`. -/
inductive FsRead (α : Type) where
  | ok (val : α)
  | err (code : String)

/-- A file-metadata record as appended by `POST /api/upload`. -/
structure FileMeta where
  name : String
  size : Nat
  type : String
  path : String
  serverPath : String
deriving DecidableEq

/-- `readOrders`: an `ENOENT` failure ("file does not exist") is treated as
an empty store; any other failure is rethrown. -/
def readOrders (d : FsRead (List Obj)) : Except String (List Obj) :=
  match d with
  | .ok v => .ok v
  | .err c => if c = "ENOENT" then .ok [] else .error c

/-- `readFiles`: identical failure handling for the file-metadata store. -/
def readFiles (d : FsRead (List FileMeta)) : Except String (List FileMeta) :=
  match d with
  | .ok v => .ok v
  | .err c => if c = "ENOENT" then .ok [] else .error c

/-- `GET /api/orders`: respond 200 with the list, or 500 on a store error
caught by the route's try/catch. -/
def getOrdersHandler (d : FsRead (List Obj)) : Nat × Option (List Obj) :=
  match readOrders d with
  | .ok os => (200, some os)
  | .error _ => (500, none)

/-- `GET /api/files`: respond 200 with the list, or 500 on a store error. -/
def getFilesHandler (d : FsRead (List FileMeta)) : Nat × Option (List FileMeta) :=
  match readFiles d with
  | .ok fs => (200, some fs)
  | .error _ => (500, none)

/-! ### File upload (`POST /api/upload` and the multer storage config) -/

/-- One file of a multipart upload request, together with the values multer
draws while generating its on-disk name: `timestamp` is `Date.now()` and
`rand` is `Math.round(Math.random() * 1E9)`. -/
structure ReqFile where
  originalname : String
  size : Nat
  mimetype : String
  timestamp : Nat
  rand : Nat
deriving DecidableEq

/-- The generated on-disk blob name:
`Date.now() + '-' + Math.round(Math.random() * 1E9) + '-' + file.originalname`. -/
def blobName (ts rand : Nat) (originalname : String) : String :=
  Nat.repr ts ++ "-" ++ Nat.repr rand ++ "-" ++ originalname

/-- The generated filename for an uploaded file. -/
def genFilename (f : ReqFile) : String := blobName f.timestamp f.rand f.originalname

/-- The public path of a generated blob name, as stored in the metadata
record (`/uploads/${file.filename}`). -/
def pathOfTriple (t : Nat × Nat × String) : String :=
  "/uploads/" ++ blobName t.1 t.2.1 t.2.2

/-- The metadata record appended for one accepted file. -/
def fileRecord (f : ReqFile) : FileMeta :=
  { name := f.originalname
    size := f.size
    type := f.mimetype
    path := "/uploads/" ++ genFilename f
    serverPath := "uploads/" ++ genFilename f }

/-- `POST /api/upload`: with zero files respond 400 before touching the
store; otherwise append one metadata record per file (in request order),
persist, and respond 200 with the new records.
Result: ((status code, response body), persisted store). -/
def uploadHandler (store : List FileMeta) (reqFiles : List ReqFile) :
    (Nat × Option (List FileMeta)) × List FileMeta :=
  if reqFiles.length = 0 then ((400, none), store)
  else ((200, some (reqFiles.map fileRecord)), store ++ reqFiles.map fileRecord)

/-! ### Delete all files (`DELETE /api/files`) -/

/-- The per-file unlink loop of `DELETE /api/files`: for every record with a
truthy (non-empty) `serverPath`, attempt `fs.unlink` and record the outcome;
a failed unlink is only logged (the surrounding try/catch swallows it) and
the loop continues.  `unlinkOk` gives each attempt's outcome. -/
def unlinkAttempts (files : List FileMeta) (unlinkOk : String → Bool) :
    List (String × Bool) :=
  files.foldl
    (fun log f =>
      if f.serverPath ≠ "" then log ++ [(f.serverPath, unlinkOk f.serverPath)] else log)
    []

/-- `DELETE /api/files`: best-effort unlink every referenced blob, then
persist the empty list and respond 200 with a confirmation message.
Result: (unlink attempts with outcomes, persisted store, status, message). -/
def deleteFilesHandler (store : List FileMeta) (unlinkOk : String → Bool) :
    List (String × Bool) × List FileMeta × Nat × String :=
  (unlinkAttempts store unlinkOk, [], 200, "All files deleted")

/-! ### Admin login (`POST /api/admin/login`) -/

/-- `POST /api/admin/login`: compare against the hardcoded pair;
respond (200, token) on match, (401, error message) otherwise. -/
def adminLoginHandler (username password : String) : Nat × String :=
  if username == "admin" && password == "xerox123" then (200, "admin-token")
  else (401, "Invalid credentials")

/-! ### Client-side page estimation (`FileUploader`, `calculateTotalPages`) -/

/-- A client-held file as seen by `calculateTotalPages`: a PDF together with
the outcome of parsing it (`some p` = parse succeeded with `p` pages;
`none` = parse threw, in which case the code substitutes
`Math.floor(Math.random() * 20) + 1` and `fallbackDraw` models the drawn
`Math.floor(Math.random() * 20)`), or a non-PDF file of a given byte size. -/
inductive CFile where
  | pdf (parseResult : Option Nat) (fallbackDraw : Nat)
  | other (size : Nat)

/-- Pages contributed by one file: true PDF page count, random fallback on
parse failure, or `Math.max(1, Math.floor(size / 50000))` for non-PDFs. -/
def pageCountOf : CFile → Nat
  | .pdf (some p) _ => p
  | .pdf none draw => draw % 20 + 1
  | .other size => max 1 (size / 50000)

/-- `calculateTotalPages`: accumulate the per-file page counts in order. -/
def calculateTotalPages (fileList : List CFile) : Nat :=
  fileList.foldl (fun totalPages f => totalPages + pageCountOf f) 0

/-- The default range string reported by `handleFiles`: the template
`1-` followed by the total when the total is positive, else `all`. -/
def defaultRangeString (totalPages : Nat) : String :=
  if totalPages > 0 then "1-" ++ Nat.repr totalPages else "all"

/-- The (page count, range string) pair `handleFiles` reports upward after
recomputing the aggregate over the held file list. -/
def handleFilesReport (fileList : List CFile) : Nat × String :=
  (calculateTotalPages fileList, defaultRangeString (calculateTotalPages fileList))

/-! ### Client-side page selection (`handlePageSelect`) -/

/-- Toggling one 1-based page number in the selected set.  A JS `Set`
iterates in insertion order, so it is modelled as a duplicate-free list:
`delete` removes the element, `add` appends it. -/
def togglePage (selectedPages : List Nat) (pageNum : Nat) : List Nat :=
  if pageNum ∈ selectedPages then selectedPages.erase pageNum
  else selectedPages ++ [pageNum]

/-- The range string reported after a toggle: if the set is non-empty,
`Array.from(set).sort((a, b) => a - b).join(',')`, else `'all'`. -/
def rangeStringOf (selectedPages : List Nat) : String :=
  if selectedPages.length > 0 then
    String.intercalate "," ((selectedPages.mergeSort (fun a b => decide (a ≤ b))).map Nat.repr)
  else "all"

/-- `handlePageSelect`: toggle the page, then report the new selection and
its range string. -/
def handlePageSelect (selectedPages : List Nat) (pageNum : Nat) : List Nat × String :=
  (togglePage selectedPages pageNum, rangeStringOf (togglePage selectedPages pageNum))

/-- A sequence of page select/deselect clicks starting from the empty
selection. -/
def runToggles (toggles : List Nat) : List Nat := toggles.foldl togglePage []

/-! ## Object-model lemmas -/

theorem getKey_setKey_same (o : Obj) (k v : String) :
    getKey (setKey o k v) k = some v := by
  induction o with
  | nil => simp [getKey, setKey]
  | cons p rest ih =>
    by_cases h : p.1 = k
    · simp [getKey, setKey, h]
    · simp [getKey, setKey, h, ih]

theorem getKey_setKey_other (o : Obj) (k v k' : String) (h : k' ≠ k) :
    getKey (setKey o k v) k' = getKey o k' := by
  induction o with
  | nil =>
    simp only [setKey, getKey]
    rw [if_neg (fun hk : k = k' => h hk.symm)]
  | cons p rest ih =>
    by_cases hp : p.1 = k
    · simp only [setKey, if_pos hp, getKey]
      rw [if_neg (fun hk : k = k' => h hk.symm),
        if_neg (fun hk : p.1 = k' => h ((hp.symm.trans hk).symm))]
    · simp only [setKey, if_neg hp, getKey]
      by_cases hp' : p.1 = k'
      · rw [if_pos hp', if_pos hp']
      · rw [if_neg hp', if_neg hp', ih]

/-! ## Decimal representation lemmas

`Date.now()` is stamped into order ids and blob names via decimal string
conversion (`Nat.repr` in this embedding), so distinct timestamps give
distinct ids exactly when `Nat.repr` is injective.  We prove that by
relating `Nat.repr` to `Nat.digits`. -/

theorem digitChar_injOn {a b : Nat} (ha : a < 10) (hb : b < 10)
    (h : Nat.digitChar a = Nat.digitChar b) : a = b := by
  have key : ∀ x y : Fin 10, Nat.digitChar x.val = Nat.digitChar y.val → x = y := by decide
  exact congrArg Fin.val (key ⟨a, ha⟩ ⟨b, hb⟩ h)

theorem digitChar_ne_dash {d : Nat} (hd : d < 10) : Nat.digitChar d ≠ '-' := by
  have key : ∀ x : Fin 10, Nat.digitChar x.val ≠ '-' := by decide
  exact key ⟨d, hd⟩

theorem toDigitsCore_ten :
    ∀ (fuel n : Nat) (acc : List Char), n < fuel →
      Nat.toDigitsCore 10 fuel n acc =
        (if n = 0 then ['0'] else ((Nat.digits 10 n).map Nat.digitChar).reverse) ++ acc := by
  intro fuel
  induction fuel with
  | zero => intro n acc h; omega
  | succ f ih =>
    intro n acc h
    by_cases hdiv : n / 10 = 0
    · have hn10 : n < 10 := by omega
      by_cases hn : n = 0
      · subst hn
        simp [Nat.toDigitsCore, Nat.digitChar]
      · rw [Nat.toDigitsCore]
        simp only [hdiv, if_pos rfl, if_neg hn]
        rw [Nat.digits_def' (b := 10) (by norm_num) (Nat.pos_of_ne_zero hn), hdiv]
        simp [Nat.mod_eq_of_lt hn10]
    · have hn : n ≠ 0 := by omega
      have hf : n / 10 < f := by omega
      rw [Nat.toDigitsCore]
      simp only [hdiv, if_neg hdiv]
      rw [ih (n / 10) (Nat.digitChar (n % 10) :: acc) hf]
      rw [if_neg hdiv, if_neg hn,
        Nat.digits_def' (b := 10) (by norm_num) (Nat.pos_of_ne_zero hn)]
      simp [List.append_assoc]

theorem repr_eq_digits (n : Nat) :
    Nat.repr n =
      ((if n = 0 then ['0'] else ((Nat.digits 10 n).map Nat.digitChar).reverse)).asString := by
  show (Nat.toDigits 10 n).asString = _
  rw [Nat.toDigits, toDigitsCore_ten (n + 1) n [] (Nat.lt_succ_self n), List.append_nil]

theorem map_digitChar_inj :
    ∀ {l1 l2 : List Nat}, (∀ d ∈ l1, d < 10) → (∀ d ∈ l2, d < 10) →
      l1.map Nat.digitChar = l2.map Nat.digitChar → l1 = l2 := by
  intro l1
  induction l1 with
  | nil =>
    intro l2 _ _ h
    cases l2 with
    | nil => rfl
    | cons c t => simp at h
  | cons c t ih =>
    intro l2 h1 h2 h
    cases l2 with
    | nil => simp at h
    | cons c2 t2 =>
      simp only [List.map_cons, List.cons.injEq] at h
      have hc : c = c2 :=
        digitChar_injOn (h1 c (List.mem_cons_self c t)) (h2 c2 (List.mem_cons_self c2 t2)) h.1
      have ht : t = t2 :=
        ih (fun d hd => h1 d (List.mem_cons_of_mem c hd))
          (fun d hd => h2 d (List.mem_cons_of_mem c2 hd)) h.2
      rw [hc, ht]

theorem nat_repr_inj : Function.Injective Nat.repr := by
  intro m n h
  rw [repr_eq_digits, repr_eq_digits] at h
  have h2 : (if m = 0 then ['0'] else ((Nat.digits 10 m).map Nat.digitChar).reverse) =
      (if n = 0 then ['0'] else ((Nat.digits 10 n).map Nat.digitChar).reverse) :=
    congrArg String.data h
  have zero_case : ∀ k : Nat, k ≠ 0 →
      ['0'] ≠ ((Nat.digits 10 k).map Nat.digitChar).reverse := by
    intro k hk habs
    have hmap : (Nat.digits 10 k).map Nat.digitChar = ['0'] := by
      have := congrArg List.reverse habs
      simpa using this.symm
    cases hdig : Nat.digits 10 k with
    | nil => rw [hdig] at hmap; simp at hmap
    | cons d t =>
      rw [hdig] at hmap
      simp only [List.map_cons, List.cons.injEq] at hmap
      have hd10 : d < 10 :=
        Nat.digits_lt_base (by norm_num) (hdig ▸ List.mem_cons_self d t)
      have hd0 : d = 0 := digitChar_injOn hd10 (by norm_num) hmap.1
      have ht : t = [] := List.map_eq_nil_iff.mp hmap.2
      have : k = 0 := by
        have hofd := Nat.ofDigits_digits 10 k
        rw [hdig, hd0, ht] at hofd
        simpa [Nat.ofDigits] using hofd.symm
      exact hk this
  by_cases hm : m = 0 <;> by_cases hn : n = 0
  · rw [hm, hn]
  · rw [if_pos hm, if_neg hn] at h2
    exact absurd h2 (zero_case n hn)
  · rw [if_neg hm, if_pos hn] at h2
    exact absurd h2.symm (zero_case m hm)
  · rw [if_neg hm, if_neg hn] at h2
    have hmaps := List.reverse_injective h2
    have hdigs := map_digitChar_inj
      (fun d hd => Nat.digits_lt_base (by norm_num) hd)
      (fun d hd => Nat.digits_lt_base (by norm_num) hd) hmaps
    exact Nat.digits_inj_iff.mp hdigs

theorem orderIdOf_inj : Function.Injective orderIdOf := by
  intro a b h
  have hd := congrArg String.data h
  rw [orderIdOf, orderIdOf, String.data_append, String.data_append] at hd
  exact nat_repr_inj (String.ext (List.append_cancel_left hd))

theorem dash_not_in_repr (n : Nat) : '-' ∉ (Nat.repr n).data := by
  rw [repr_eq_digits]
  show '-' ∉ (if n = 0 then ['0'] else ((Nat.digits 10 n).map Nat.digitChar).reverse)
  by_cases hn : n = 0
  · rw [if_pos hn]; decide
  · rw [if_neg hn]
    intro hmem
    rw [List.mem_reverse] at hmem
    obtain ⟨d, hd, hdc⟩ := List.mem_map.mp hmem
    exact digitChar_ne_dash (Nat.digits_lt_base (by norm_num) hd) hdc

theorem append_dash_cancel :
    ∀ (a1 : List Char) {a2 b1 b2 : List Char}, '-' ∉ a1 → '-' ∉ a2 →
      a1 ++ '-' :: b1 = a2 ++ '-' :: b2 → a1 = a2 ∧ b1 = b2 := by
  intro a1
  induction a1 with
  | nil =>
    intro a2 b1 b2 _ h2 h
    cases a2 with
    | nil => simpa using h
    | cons c t =>
      simp only [List.nil_append, List.cons_append, List.cons.injEq] at h
      exact absurd (h.1 ▸ List.mem_cons_self c t) h2
  | cons c t ih =>
    intro a2 b1 b2 h1 h2 h
    cases a2 with
    | nil =>
      simp only [List.nil_append, List.cons_append, List.cons.injEq] at h
      exact absurd (h.1 ▸ List.mem_cons_self c t) h1
    | cons c2 t2 =>
      simp only [List.cons_append, List.cons.injEq] at h
      have := ih (fun hm => h1 (List.mem_cons_of_mem c hm))
        (fun hm => h2 (List.mem_cons_of_mem c2 hm)) h.2
      exact ⟨by rw [h.1, this.1], this.2⟩

theorem blobName_inj {t1 r1 t2 r2 : Nat} {n1 n2 : String}
    (h : blobName t1 r1 n1 = blobName t2 r2 n2) : t1 = t2 ∧ r1 = r2 ∧ n1 = n2 := by
  have hd := congrArg String.data h
  simp only [blobName, String.data_append] at hd
  have hd' : (Nat.repr t1).data ++ '-' :: ((Nat.repr r1).data ++ '-' :: n1.data) =
      (Nat.repr t2).data ++ '-' :: ((Nat.repr r2).data ++ '-' :: n2.data) := by
    simpa [List.append_assoc] using hd
  obtain ⟨hts, hrest⟩ :=
    append_dash_cancel _ (dash_not_in_repr t1) (dash_not_in_repr t2) hd'
  obtain ⟨hr, hn⟩ :=
    append_dash_cancel _ (dash_not_in_repr r1) (dash_not_in_repr r2) hrest
  exact ⟨nat_repr_inj (String.ext hts), nat_repr_inj (String.ext hr), String.ext hn⟩

theorem pathOfTriple_inj : Function.Injective pathOfTriple := by
  intro t1 t2 h
  rw [pathOfTriple, pathOfTriple] at h
  have hd := congrArg String.data h
  rw [String.data_append, String.data_append] at hd
  have hb := blobName_inj (String.ext (List.append_cancel_left hd))
  obtain ⟨a1, b1, c1⟩ := t1
  obtain ⟨a2, b2, c2⟩ := t2
  simp only at hb
  rw [hb.1, hb.2.1, hb.2.2]

/-! ## Order-store lemmas -/

theorem getKey_newOrderOf_orderId (body : Obj) (now : Nat) (nowIso : String) :
    getKey (newOrderOf body now nowIso) "orderId" = some (orderIdOf now) := by
  rw [newOrderOf, getKey_setKey_other _ _ _ _ (by decide),
    getKey_setKey_other _ _ _ _ (by decide), getKey_setKey_same]

theorem getKey_newOrderOf_orderDate (body : Obj) (now : Nat) (nowIso : String) :
    getKey (newOrderOf body now nowIso) "orderDate" = some nowIso := by
  rw [newOrderOf, getKey_setKey_other _ _ _ _ (by decide), getKey_setKey_same]

theorem getKey_newOrderOf_status (body : Obj) (now : Nat) (nowIso : String) :
    getKey (newOrderOf body now nowIso) "status" = some "pending" := by
  rw [newOrderOf, getKey_setKey_same]

theorem getKey_newOrderOf_passthrough (body : Obj) (now : Nat) (nowIso : String)
    (k : String) (h1 : k ≠ "orderId") (h2 : k ≠ "orderDate") (h3 : k ≠ "status") :
    getKey (newOrderOf body now nowIso) k = getKey body k := by
  rw [newOrderOf, getKey_setKey_other _ _ _ _ h3, getKey_setKey_other _ _ _ _ h2,
    getKey_setKey_other _ _ _ _ h1]

theorem runCreates_from (steps : List CreateStep) :
    ∀ acc : List Obj,
      steps.foldl (fun acc s => (createOrder acc s.body s.now s.nowIso).2) acc =
        acc ++ steps.map (fun s => newOrderOf s.body s.now s.nowIso) := by
  induction steps with
  | nil => intro acc; simp
  | cons s rest ih =>
    intro acc
    rw [List.foldl_cons, ih]
    simp [createOrder, List.append_assoc]

theorem runCreates_eq (steps : List CreateStep) :
    runCreates steps = steps.map (fun s => newOrderOf s.body s.now s.nowIso) := by
  rw [runCreates, runCreates_from steps [], List.nil_append]

theorem updateOrderStatus_none (orders : List Obj) (oid st : String)
    (h : ∀ o ∈ orders, getKey o "orderId" ≠ some oid) :
    updateOrderStatus orders oid st = none := by
  induction orders with
  | nil => rfl
  | cons o rest ih =>
    rw [updateOrderStatus, if_neg (h o (List.mem_cons_self o rest)),
      ih (fun o' ho' => h o' (List.mem_cons_of_mem o ho'))]

theorem updateOrderStatus_found (orders : List Obj) (oid st : String)
    (h : ∃ o ∈ orders, getKey o "orderId" = some oid) :
    ∃ pre x post,
      orders = pre ++ x :: post ∧
      (∀ o ∈ pre, getKey o "orderId" ≠ some oid) ∧
      getKey x "orderId" = some oid ∧
      updateOrderStatus orders oid st =
        some (setKey x "status" st, pre ++ setKey x "status" st :: post) := by
  induction orders with
  | nil => simp at h
  | cons o rest ih =>
    by_cases ho : getKey o "orderId" = some oid
    · refine ⟨[], o, rest, rfl, by simp, ho, ?_⟩
      rw [updateOrderStatus, if_pos ho]
      rfl
    · have h' : ∃ o' ∈ rest, getKey o' "orderId" = some oid := by
        obtain ⟨x, hx, hxid⟩ := h
        rcases List.mem_cons.mp hx with hxo | hxr
        · exact absurd (hxo ▸ hxid) ho
        · exact ⟨x, hxr, hxid⟩
      obtain ⟨pre, x, post, heq, hpre, hx, hupd⟩ := ih h'
      refine ⟨o :: pre, x, post, by rw [List.cons_append, heq], ?_, hx, ?_⟩
      · intro o' ho'
        rcases List.mem_cons.mp ho' with h1 | h1
        · exact h1 ▸ ho
        · exact hpre o' h1
      · rw [updateOrderStatus, if_neg ho, hupd, List.cons_append]

/-! ## File-deletion lemmas -/

theorem unlinkAttempts_eq (unlinkOk : String → Bool) :
    ∀ (files : List FileMeta) (acc : List (String × Bool)),
      files.foldl
        (fun log f =>
          if f.serverPath ≠ "" then log ++ [(f.serverPath, unlinkOk f.serverPath)] else log)
        acc =
      acc ++ (files.filter (fun f => f.serverPath ≠ "")).map
        (fun f => (f.serverPath, unlinkOk f.serverPath)) := by
  intro files
  induction files with
  | nil => intro acc; simp
  | cons f rest ih =>
    intro acc
    rw [List.foldl_cons]
    by_cases hf : f.serverPath ≠ ""
    · rw [if_pos hf, ih]
      have hflt : List.filter (fun f => decide (f.serverPath ≠ "")) (f :: rest) =
          f :: rest.filter (fun f => decide (f.serverPath ≠ "")) := by
        simp [List.filter_cons, hf]
      rw [hflt, List.map_cons]
      simp
    · rw [if_neg hf, ih]
      have hflt : List.filter (fun f => decide (f.serverPath ≠ "")) (f :: rest) =
          rest.filter (fun f => decide (f.serverPath ≠ "")) := by
        simp [List.filter_cons, hf]
      rw [hflt]

/-! ## Page-selection lemmas -/

theorem togglePage_nodup {s : List Nat} (h : s.Nodup) (p : Nat) :
    (togglePage s p).Nodup := by
  rw [togglePage]
  by_cases hp : p ∈ s
  · rw [if_pos hp]
    exact h.erase p
  · rw [if_neg hp]
    rw [List.nodup_append]
    refine ⟨h, List.nodup_singleton p, ?_⟩
    intro a ha hb
    rw [List.mem_singleton] at hb
    exact hp (hb ▸ ha)

theorem runToggles_nodup (toggles : List Nat) : (runToggles toggles).Nodup := by
  rw [runToggles]
  have key : ∀ (ts acc : List Nat), acc.Nodup → (ts.foldl togglePage acc).Nodup := by
    intro ts
    induction ts with
    | nil => intro acc h; exact h
    | cons t rest ih =>
      intro acc h
      exact ih (togglePage acc t) (togglePage_nodup h t)
  exact key toggles [] List.nodup_nil

/-! ## Claim theorems -/

/-- Claim C1 (amended): for every sequence of create-order operations whose
server timestamps are pairwise distinct, each create returns and persists a
record whose orderId is unique among all orders in the store, and every
created record has status `pending`.  (As stated the claim fails: two
creates in the same millisecond stamp the same orderId, see the
counterexample.) -/
theorem claim1_create_unique_pending (steps : List CreateStep)
    (h : (steps.map CreateStep.now).Nodup) :
    ((runCreates steps).map (fun o => getKey o "orderId")).Nodup ∧
    ∀ o ∈ runCreates steps, getKey o "status" = some "pending" := by
  constructor
  · rw [runCreates_eq, List.map_map]
    have heq : ((fun o => getKey o "orderId") ∘ fun s : CreateStep =>
        newOrderOf s.body s.now s.nowIso) =
        ((some ∘ orderIdOf) ∘ CreateStep.now) :=
      funext fun s => getKey_newOrderOf_orderId s.body s.now s.nowIso
    rw [heq, ← List.map_map]
    exact h.map ((Option.some_injective String).comp orderIdOf_inj)
  · rw [runCreates_eq]
    intro o ho
    obtain ⟨s, _, rfl⟩ := List.mem_map.mp ho
    exact getKey_newOrderOf_status s.body s.now s.nowIso

/-- Counterexample to claim C1 as stated: two creates in the same
millisecond both stamp `ORD-0`, so the second orderId is not unique among
the still-present orders. -/
theorem claim1_counterexample :
    ¬ ((runCreates [⟨[], 0, "1970-01-01T00:00:00.000Z"⟩,
          ⟨[], 0, "1970-01-01T00:00:00.000Z"⟩]).map
        (fun o => getKey o "orderId")).Nodup := by decide

/-- Witness for claim C1 at two creates with distinct timestamps. -/
theorem claim1_witness :
    ((runCreates [⟨[], 0, "A"⟩, ⟨[], 1, "B"⟩]).map (fun o => getKey o "orderId")).Nodup ∧
    ∀ o ∈ runCreates [⟨[], 0, "A"⟩, ⟨[], 1, "B"⟩], getKey o "status" = some "pending" :=
  claim1_create_unique_pending [⟨[], 0, "A"⟩, ⟨[], 1, "B"⟩] (by decide)

/-- Claim C2 (amended): uploading N ≥ 1 files appends exactly N metadata
records in request order (list-files then returns old store followed by the
new records in upload order), and the generated storage paths - built as
timestamp, random suffix and the original name joined by dashes, with the
original name used verbatim - are pairwise distinct provided the
(timestamp, random suffix, original name) triples are pairwise distinct.
(As stated the claim fails: a repeated triple repeats the path, see the
counterexample.) -/
theorem claim2_upload (store : List FileMeta) (reqFiles : List ReqFile)
    (hne : reqFiles ≠ [])
    (hdist : (reqFiles.map (fun f => (f.timestamp, f.rand, f.originalname))).Nodup) :
    (uploadHandler store reqFiles).1.1 = 200 ∧
    (uploadHandler store reqFiles).1.2 = some (reqFiles.map fileRecord) ∧
    (uploadHandler store reqFiles).2 = store ++ reqFiles.map fileRecord ∧
    (uploadHandler store reqFiles).2.length = store.length + reqFiles.length ∧
    ((reqFiles.map fileRecord).map FileMeta.path).Nodup ∧
    getFilesHandler (.ok (uploadHandler store reqFiles).2) =
      (200, some (store ++ reqFiles.map fileRecord)) := by
  have hlen : ¬ reqFiles.length = 0 := fun h0 => hne (List.length_eq_zero.mp h0)
  have hup : uploadHandler store reqFiles =
      ((200, some (reqFiles.map fileRecord)), store ++ reqFiles.map fileRecord) := by
    rw [uploadHandler, if_neg hlen]
  refine ⟨by rw [hup], by rw [hup], by rw [hup], by rw [hup]; simp, ?_, by rw [hup]; rfl⟩
  have hmm : (reqFiles.map fileRecord).map FileMeta.path =
      (reqFiles.map (fun f => (f.timestamp, f.rand, f.originalname))).map pathOfTriple := by
    rw [List.map_map, List.map_map]; rfl
  rw [hmm]
  exact hdist.map pathOfTriple_inj

/-- Counterexample to claim C2 as stated: two files handled in the same
millisecond with the same random draw and the same original name receive
identical generated paths. -/
theorem claim2_counterexample :
    ¬ (((uploadHandler [] [⟨"a.pdf", 100, "application/pdf", 5, 7⟩,
          ⟨"a.pdf", 100, "application/pdf", 5, 7⟩]).2).map FileMeta.path).Nodup := by
  decide

/-- Witness for claim C2 at two files with distinct generation triples. -/
theorem claim2_witness :
    (([(⟨"a.pdf", 100, "application/pdf", 5, 7⟩ : ReqFile),
        ⟨"b.docx", 60000, "application/msword", 5, 8⟩].map fileRecord).map
      FileMeta.path).Nodup :=
  (claim2_upload [] [⟨"a.pdf", 100, "application/pdf", 5, 7⟩,
    ⟨"b.docx", 60000, "application/msword", 5, 8⟩] (by decide) (by decide)).2.2.2.2.1

/-- Claim C3: updating the status of an orderId matching no record responds
404 and persists nothing (the store is unchanged); updating a matching
orderId overwrites only that record's status field, persists the list, and
returns the updated record. -/
theorem claim3_update_status (orders : List Obj) (oid st : String) :
    ((∀ o ∈ orders, getKey o "orderId" ≠ some oid) →
      putOrderHandler orders oid st = ((404, none), orders)) ∧
    ((∃ o ∈ orders, getKey o "orderId" = some oid) →
      ∃ pre x post,
        orders = pre ++ x :: post ∧
        (∀ o ∈ pre, getKey o "orderId" ≠ some oid) ∧
        getKey x "orderId" = some oid ∧
        putOrderHandler orders oid st =
          ((200, some (setKey x "status" st)), pre ++ setKey x "status" st :: post) ∧
        getKey (setKey x "status" st) "status" = some st ∧
        ∀ k, k ≠ "status" → getKey (setKey x "status" st) k = getKey x k) := by
  constructor
  · intro h
    simp only [putOrderHandler, updateOrderStatus_none orders oid st h]
  · intro h
    obtain ⟨pre, x, post, heq, hpre, hx, hupd⟩ := updateOrderStatus_found orders oid st h
    exact ⟨pre, x, post, heq, hpre, hx, by simp only [putOrderHandler, hupd],
      getKey_setKey_same x "status" st,
      fun k hk => getKey_setKey_other x "status" st k hk⟩

/-- Witness for claim C3: an unknown orderId responds 404 and leaves the
single-record store unchanged. -/
theorem claim3_witness :
    putOrderHandler [[("orderId", "ORD-1"), ("status", "pending")]] "ORD-2" "completed" =
      ((404, none), [[("orderId", "ORD-1"), ("status", "pending")]]) :=
  (claim3_update_status [[("orderId", "ORD-1"), ("status", "pending")]] "ORD-2" "completed").1
    (by decide)

/-- Claim C4: an upload request containing zero files responds 400 and the
persisted file metadata list is unchanged. -/
theorem claim4_empty_upload (store : List FileMeta) :
    uploadHandler store [] = ((400, none), store) := rfl

/-- Claim C5: deleting all files attempts a best-effort unlink of every
record's referenced blob (every record with a truthy serverPath is
attempted, whatever earlier outcomes were, and failures only get logged),
then persists the empty list and responds with a confirmation, regardless
of how many unlinks failed. -/
theorem claim5_delete_all_files (store : List FileMeta) (unlinkOk : String → Bool) :
    (deleteFilesHandler store unlinkOk).2.1 = [] ∧
    (deleteFilesHandler store unlinkOk).2.2 = (200, "All files deleted") ∧
    (deleteFilesHandler store unlinkOk).1 =
      (store.filter (fun f => f.serverPath ≠ "")).map
        (fun f => (f.serverPath, unlinkOk f.serverPath)) := by
  refine ⟨rfl, rfl, ?_⟩
  show unlinkAttempts store unlinkOk = _
  rw [unlinkAttempts, unlinkAttempts_eq unlinkOk store [], List.nil_append]


/-- Claim C6: reading either store treats a file-does-not-exist failure
(`ENOENT`) as an empty store and the request proceeds with the empty list,
while every other read failure propagates to the route handler, which
responds with a generic 500. -/
theorem claim6_store_read_failures :
    (∀ v : List Obj, getOrdersHandler (.ok v) = (200, some v)) ∧
    getOrdersHandler (.err "ENOENT") = (200, some []) ∧
    (∀ c : String, c ≠ "ENOENT" → getOrdersHandler (.err c) = (500, none)) ∧
    (∀ v : List FileMeta, getFilesHandler (.ok v) = (200, some v)) ∧
    getFilesHandler (.err "ENOENT") = (200, some []) ∧
    (∀ c : String, c ≠ "ENOENT" → getFilesHandler (.err c) = (500, none)) ∧
    readOrders (.err "ENOENT") = .ok [] ∧
    (∀ c : String, c ≠ "ENOENT" → readOrders (.err c) = .error c) ∧
    readFiles (.err "ENOENT") = .ok [] ∧
    (∀ c : String, c ≠ "ENOENT" → readFiles (.err c) = .error c) := by
  refine ⟨fun v => rfl, rfl, fun c hc => ?_, fun v => rfl, rfl, fun c hc => ?_, rfl,
    fun c hc => ?_, rfl, fun c hc => ?_⟩
  · simp only [getOrdersHandler, readOrders, if_neg hc]
  · simp only [getFilesHandler, readFiles, if_neg hc]
  · simp only [readOrders, if_neg hc]
  · simp only [readFiles, if_neg hc]

/-- Witness for claim C6: a permission failure on the orders store yields a
500 response. -/
theorem claim6_witness : getOrdersHandler (.err "EACCES") = (500, none) :=
  claim6_store_read_failures.2.2.1 "EACCES" (by decide)

/-- Claim C7: over a held list of a successfully parsed PDF with P pages
and a non-PDF file of S bytes, the aggregate page count is
P + max(1, S / 50000), the reported default range string is `1-` followed
by that total (the total is positive here), and a zero total would be
reported as `all`. -/
theorem claim7_page_estimation (P S fb : Nat) :
    calculateTotalPages [CFile.pdf (some P) fb, CFile.other S] = P + max 1 (S / 50000) ∧
    handleFilesReport [CFile.pdf (some P) fb, CFile.other S] =
      (P + max 1 (S / 50000), "1-" ++ Nat.repr (P + max 1 (S / 50000))) ∧
    defaultRangeString 0 = "all" := by
  have hcount : calculateTotalPages [CFile.pdf (some P) fb, CFile.other S] =
      P + max 1 (S / 50000) := by
    simp [calculateTotalPages, pageCountOf]
  refine ⟨hcount, ?_, rfl⟩
  have hpos : 0 < P + max 1 (S / 50000) := by
    have := Nat.le_max_left 1 (S / 50000)
    omega
  rw [handleFilesReport, hcount, defaultRangeString, if_pos hpos]

/-- Claim C8: after any sequence of page select/deselect toggles the
selection is duplicate-free; while it is non-empty the reported range
string is the comma-join of its elements listed in ascending order, and
when it is empty the reported range string is `all`. -/
theorem claim8_page_select (toggles : List Nat) :
    (runToggles toggles).Nodup ∧
    (runToggles toggles = [] → rangeStringOf (runToggles toggles) = "all") ∧
    (runToggles toggles ≠ [] →
      ∃ l : List Nat, l.Perm (runToggles toggles) ∧ l.Sorted (· ≤ ·) ∧
        rangeStringOf (runToggles toggles) = String.intercalate "," (l.map Nat.repr)) := by
  refine ⟨runToggles_nodup toggles, ?_, ?_⟩
  · intro h; rw [h]; rfl
  · intro h
    refine ⟨(runToggles toggles).mergeSort (fun a b => decide (a ≤ b)),
      List.mergeSort_perm (runToggles toggles) _,
      List.sorted_mergeSort' (runToggles toggles), ?_⟩
    rw [rangeStringOf, if_pos (List.length_pos.mpr h)]

/-- Witness for claim C8 at the toggle sequence select 2, select 4,
deselect 2. -/
theorem claim8_witness :
    ∃ l : List Nat, l.Perm (runToggles [2, 4, 2]) ∧ l.Sorted (· ≤ ·) ∧
      rangeStringOf (runToggles [2, 4, 2]) = String.intercalate "," (l.map Nat.repr) :=
  (claim8_page_select [2, 4, 2]).2.2 (by decide)

/-- Claim C9: login succeeds with the token exactly for the hardcoded
credential pair; every other pair is answered 401. -/
theorem claim9_admin_login (username password : String) :
    (adminLoginHandler username password = (200, "admin-token") ↔
      username = "admin" ∧ password = "xerox123") ∧
    (¬ (username = "admin" ∧ password = "xerox123") →
      adminLoginHandler username password = (401, "Invalid credentials")) := by
  rw [adminLoginHandler]
  by_cases hu : username = "admin" <;> by_cases hp : password = "xerox123" <;>
    simp [hu, hp]

/-- Witness for claim C9: the hardcoded pair succeeds, a wrong password is
rejected. -/
theorem claim9_witness :
    adminLoginHandler "admin" "xerox123" = (200, "admin-token") ∧
    adminLoginHandler "admin" "wrong" = (401, "Invalid credentials") :=
  ⟨(claim9_admin_login "admin" "xerox123").1.mpr ⟨rfl, rfl⟩,
    (claim9_admin_login "admin" "wrong").2 (by decide)⟩

/-- Claim C10: create-order discards any client-supplied orderId, orderDate
or status (the body is spread first and those three fields are then
overwritten): the returned and persisted record carries the server-stamped
orderId, the server clock's ISO date and status `pending`, while every
other client field passes through untouched. -/
theorem claim10_server_stamps (orders : List Obj) (body : Obj) (now : Nat) (nowIso : String) :
    getKey (createOrder orders body now nowIso).1 "orderId" = some (orderIdOf now) ∧
    getKey (createOrder orders body now nowIso).1 "orderDate" = some nowIso ∧
    getKey (createOrder orders body now nowIso).1 "status" = some "pending" ∧
    (createOrder orders body now nowIso).2 = orders ++ [(createOrder orders body now nowIso).1] ∧
    ∀ k, k ≠ "orderId" → k ≠ "orderDate" → k ≠ "status" →
      getKey (createOrder orders body now nowIso).1 k = getKey body k :=
  ⟨getKey_newOrderOf_orderId body now nowIso, getKey_newOrderOf_orderDate body now nowIso,
    getKey_newOrderOf_status body now nowIso, rfl,
    fun k h1 h2 h3 => getKey_newOrderOf_passthrough body now nowIso k h1 h2 h3⟩

/-- Witness for claim C10: a body spoofing orderId and status is
overridden, while its ordinary field passes through. -/
theorem claim10_witness :
    getKey (createOrder [] [("orderId", "FAKE"), ("status", "done"), ("customer", "bob")]
      7 "D7").1 "orderId" = some "ORD-7" ∧
    getKey (createOrder [] [("orderId", "FAKE"), ("status", "done"), ("customer", "bob")]
      7 "D7").1 "customer" = some "bob" :=
  ⟨(claim10_server_stamps [] [("orderId", "FAKE"), ("status", "done"), ("customer", "bob")]
      7 "D7").1,
    ((claim10_server_stamps [] [("orderId", "FAKE"), ("status", "done"), ("customer", "bob")]
        7 "D7").2.2.2.2 "customer" (by decide) (by decide) (by decide)).trans (by decide)⟩

end Fermaa
